import Mathlib

/-!
# Verification of the `do_while!` rewriting macro

The repository exports a single `macro_rules`-style rewriter `do_while!`
(src/src/lib.rs, lines 145-155) with three rules:

  * `()                                               => {}`
  * `(do $body:block while $cond:expr ; $($others)*)  =>
        while { $body; $cond } {}            do_while! { $($others)* }`
  * `(do $b:block while $c:expr , do $a:block $($o)*) =>
        while { $b; $c } { $a; }             do_while! { $($o)* }`

We embed the *generated* code shallowly: a body block is a state
transformer `S → S`, a condition is `S → Bool`, and the host language's
`while` loop (whose controlling expression may carry side effects, as in
the expansion `while { body; cond } { after }`) is a big-step relation.
A token-level model of the macro's pattern matching covers the purely
syntactic claims (determinism of expansion, rejection of malformed input).
-/

namespace DoWhileVerif

variable {S : Type}

/-- Big-step semantics of the host-language `while` loop as generated by the
macro: the controlling expression is a state transformer returning the next
state together with the boolean that decides continuation (this is the
embedding of the Rust block expression `{ $body; $cond }`), and `loopBody`
is the repeated body of the `while` (empty, i.e. `id`, for form (1);
`{ $body_after; }` for form (2)).  `WhileRun condExpr loopBody s s'` holds
when the loop, started in state `s`, terminates in state `s'`. -/
inductive WhileRun (condExpr : S → S × Bool) (loopBody : S → S) : S → S → Prop
  | exit {s s' : S} : condExpr s = (s', false) → WhileRun condExpr loopBody s s'
  | iter {s s₁ s' : S} : condExpr s = (s₁, true) →
      WhileRun condExpr loopBody (loopBody s₁) s' →
      WhileRun condExpr loopBody s s'

/-- The controlling expression generated by both macro rules:
`{ $body; $cond }` runs the (primary) body and then evaluates the
condition in the resulting state. -/
def condBlock (body : S → S) (cond : S → Bool) : S → S × Bool :=
  fun s => (body s, cond (body s))

/-- Expansion of form (1), `do $body while $cond ;`:
the generated code is `while { $body; $cond } {}`. -/
def expand1 (body : S → S) (cond : S → Bool) : S → S → Prop :=
  WhileRun (condBlock body cond) id

/-- Expansion of form (2), `do $body_before while $cond , do $body_after`:
the generated code is `while { $body_before; $cond } { $body_after; }`. -/
def expand2 (bodyBefore : S → S) (cond : S → Bool) (bodyAfter : S → S) :
    S → S → Prop :=
  WhileRun (condBlock bodyBefore cond) bodyAfter

/-- Fuel-bounded executable runner for the generated `while` loop;
used to produce concrete terminating runs. -/
def whileFuel (condExpr : S → S × Bool) (loopBody : S → S) :
    Nat → S → Option S
  | 0, _ => none
  | n + 1, s =>
    match condExpr s with
    | (s₁, true) => whileFuel condExpr loopBody n (loopBody s₁)
    | (s₁, false) => some s₁

theorem whileFuel_sound {condExpr : S → S × Bool} {loopBody : S → S} :
    ∀ {n : Nat} {s s' : S}, whileFuel condExpr loopBody n s = some s' →
      WhileRun condExpr loopBody s s' := by
  intro n
  induction n with
  | zero => intro s s' h; simp [whileFuel] at h
  | succ n ih =>
    intro s s' h
    unfold whileFuel at h
    split at h
    · exact WhileRun.iter (by assumption) (ih h)
    · exact WhileRun.exit (by simp_all)

/-- The generated `while` loop is deterministic (its pieces are pure
state transformers). -/
theorem WhileRun_det {condExpr : S → S × Bool} {loopBody : S → S}
    {s s₁ s₂ : S} (h₁ : WhileRun condExpr loopBody s s₁)
    (h₂ : WhileRun condExpr loopBody s s₂) : s₁ = s₂ := by
  induction h₁ with
  | exit he =>
    cases h₂ with
    | exit he' =>
      rw [he] at he'
      simp_all
    | iter hc _ => rw [he] at hc; simp at hc
  | iter hc _ ih =>
    cases h₂ with
    | exit he' => rw [he'] at hc; simp at hc
    | iter hc' hr' =>
      rw [hc] at hc'
      cases hc'
      exact ih hr'

/-! ## Reference do-while semantics (spec side, for the refinement claim) -/

/-- Modelled from the spec: reference do-while semantics — "a loop that must
execute `<body>` at least once, then repeatedly: evaluate `<condition>`;
if true, execute `<body>` again and recheck; if false, terminate."
`DoWhileRef body cond s s'` holds when such a loop started in `s`
terminates in `s'`. -/
inductive DoWhileRef (body : S → S) (cond : S → Bool) : S → S → Prop
  | stop {s : S} : cond (body s) = false → DoWhileRef body cond s (body s)
  | again {s s' : S} : cond (body s) = true →
      DoWhileRef body cond (body s) s' → DoWhileRef body cond s s'

/-! ## Instrumented (trace-emitting) semantics of the expanded loops

To state the counting and temporal claims we record the observable events
of a run: each execution of the primary body, each evaluation of the
condition (with its result), and each execution of the secondary body.
These relations are the same big-step semantics as `expand1`/`expand2`,
only decorated with the event list; the grounding lemmas below prove so. -/

/-- An observable event of a run of an expanded loop. -/
inductive Ev
  | primary
  | check (b : Bool)
  | secondary
  deriving DecidableEq, Repr

/-- Trace semantics of the form-(1) expansion `while { body; cond } {}`:
each pass through the controlling expression runs the primary body and then
checks the condition; the repeated body is empty. -/
inductive Run1 (body : S → S) (cond : S → Bool) : S → S → List Ev → Prop
  | exit {s : S} : cond (body s) = false →
      Run1 body cond s (body s) [Ev.primary, Ev.check false]
  | iter {s s' : S} {tr : List Ev} : cond (body s) = true →
      Run1 body cond (body s) s' tr →
      Run1 body cond s s' (Ev.primary :: Ev.check true :: tr)

/-- Trace semantics of the form-(2) expansion
`while { body; cond } { after; }`: as `Run1`, but after every true check the
secondary body runs before the next pass through the controlling
expression. -/
inductive Run2 (body : S → S) (cond : S → Bool) (after : S → S) :
    S → S → List Ev → Prop
  | exit {s : S} : cond (body s) = false →
      Run2 body cond after s (body s) [Ev.primary, Ev.check false]
  | iter {s s' : S} {tr : List Ev} : cond (body s) = true →
      Run2 body cond after (after (body s)) s' tr →
      Run2 body cond after s s' (Ev.primary :: Ev.check true :: Ev.secondary :: tr)

/-- Grounding: a trace run of the form-(2) expansion is a run of the plain
embedding of the generated code. -/
theorem Run2_to_expand2 {body : S → S} {cond : S → Bool} {after : S → S}
    {s s' : S} {tr : List Ev} (h : Run2 body cond after s s' tr) :
    expand2 body cond after s s' := by
  induction h with
  | exit hc => exact WhileRun.exit (by simp [condBlock, hc])
  | iter hc _ ih => exact WhileRun.iter (by simp [condBlock, hc]) ih

/-- Grounding: every terminating run of the form-(2) expansion carries a
trace. -/
theorem expand2_to_Run2 {body : S → S} {cond : S → Bool} {after : S → S}
    {s s' : S} (h : expand2 body cond after s s') :
    ∃ tr, Run2 body cond after s s' tr := by
  induction h with
  | exit he =>
    simp only [condBlock, Prod.mk.injEq] at he
    exact ⟨_, he.1 ▸ Run2.exit he.2⟩
  | iter hc _ ih =>
    obtain ⟨tr, htr⟩ := ih
    simp only [condBlock, Prod.mk.injEq] at hc
    exact ⟨_, Run2.iter hc.2 (by rw [hc.1]; exact htr)⟩

/-- Grounding: a trace run of the form-(1) expansion is a run of the plain
embedding of the generated code. -/
theorem Run1_to_expand1 {body : S → S} {cond : S → Bool}
    {s s' : S} {tr : List Ev} (h : Run1 body cond s s' tr) :
    expand1 body cond s s' := by
  induction h with
  | exit hc => exact WhileRun.exit (by simp [condBlock, hc])
  | iter hc _ ih => exact WhileRun.iter (by simp [condBlock, hc]) ih

/-- Grounding: every terminating run of the form-(1) expansion carries a
trace. -/
theorem expand1_to_Run1 {body : S → S} {cond : S → Bool}
    {s s' : S} (h : expand1 body cond s s') :
    ∃ tr, Run1 body cond s s' tr := by
  induction h with
  | exit he =>
    simp only [condBlock, Prod.mk.injEq] at he
    exact ⟨_, he.1 ▸ Run1.exit he.2⟩
  | iter hc _ ih =>
    obtain ⟨tr, htr⟩ := ih
    simp only [condBlock, Prod.mk.injEq] at hc
    exact ⟨_, Run1.iter hc.2 (by rw [hc.1]; simpa using htr)⟩

/-! ## Counting helpers over traces -/

/-- The sequence of condition-check results recorded in a trace. -/
def checksOf (tr : List Ev) : List Bool :=
  tr.filterMap fun e =>
    match e with
    | Ev.check b => some b
    | _ => none

/-- Number of primary-body executions recorded in a trace. -/
def countPrimary (tr : List Ev) : Nat := tr.count Ev.primary

/-- Number of secondary-body executions recorded in a trace. -/
def countSecondary (tr : List Ev) : Nat := tr.count Ev.secondary

/-! ## Executable trace runners (for concrete runs) -/

/-- Fuel-bounded executable runner producing the trace of a form-(1) run. -/
def run1Fuel (body : S → S) (cond : S → Bool) :
    Nat → S → Option (S × List Ev)
  | 0, _ => none
  | n + 1, s =>
    if cond (body s) then
      match run1Fuel body cond n (body s) with
      | some (s', tr) => some (s', Ev.primary :: Ev.check true :: tr)
      | none => none
    else some (body s, [Ev.primary, Ev.check false])

/-- Fuel-bounded executable runner producing the trace of a form-(2) run. -/
def run2Fuel (body : S → S) (cond : S → Bool) (after : S → S) :
    Nat → S → Option (S × List Ev)
  | 0, _ => none
  | n + 1, s =>
    if cond (body s) then
      match run2Fuel body cond after n (after (body s)) with
      | some (s', tr) =>
        some (s', Ev.primary :: Ev.check true :: Ev.secondary :: tr)
      | none => none
    else some (body s, [Ev.primary, Ev.check false])

theorem run1Fuel_sound {body : S → S} {cond : S → Bool} :
    ∀ {n : Nat} {s s' : S} {tr : List Ev},
      run1Fuel body cond n s = some (s', tr) → Run1 body cond s s' tr := by
  intro n
  induction n with
  | zero => intro s s' tr h; simp [run1Fuel] at h
  | succ n ih =>
    intro s s' tr h
    unfold run1Fuel at h
    split at h
    · split at h
      · cases h
        exact Run1.iter (by assumption) (ih (by assumption))
      · cases h
    · cases h
      exact Run1.exit (by simp_all)

theorem run2Fuel_sound {body : S → S} {cond : S → Bool} {after : S → S} :
    ∀ {n : Nat} {s s' : S} {tr : List Ev},
      run2Fuel body cond after n s = some (s', tr) →
        Run2 body cond after s s' tr := by
  intro n
  induction n with
  | zero => intro s s' tr h; simp [run2Fuel] at h
  | succ n ih =>
    intro s s' tr h
    unfold run2Fuel at h
    split at h
    · split at h
      · cases h
        exact Run2.iter (by assumption) (ih (by assumption))
      · cases h
    · cases h
      exact Run2.exit (by simp_all)

/-! ## Token-level model of the macro's pattern matching

`do_while!` is a `macro_rules` rewriter: it matches its input token stream
against three patterns, tried in order, and fails to expand when none
matches.  We model the input at the granularity the patterns distinguish:
the keywords `do` / `while`, the separators `;` / `,`, a `$:block` fragment
(embedded as the state transformer it denotes) and a `$:expr` fragment
(embedded as the boolean condition it denotes). -/

/-- A token of a `do_while!` invocation. -/
inductive Tok (S : Type)
  | kwDo
  | kwWhile
  | semi
  | comma
  | block (b : S → S)
  | cexpr (c : S → Bool)

/-- One `while` statement generated by the macro:
`while { body; cond } { ... }`, where `after = none` encodes the empty
repeated body of the form-(1) rule and `after = some a` the
`{ $body_after; }` of the form-(2) rule. -/
inductive GenStmt (S : Type)
  | whileLoop (body : S → S) (cond : S → Bool) (after : Option (S → S))

/-- The three rules of the `do_while!` macro as a matching relation:
`MacroMatch ts out` holds when the token stream `ts` matches one of the
patterns and the expansion produces the statements `out` (each rule emits
one `while` statement and recurses on the remaining tokens via
`do_while! { $($others)* }`). -/
inductive MacroMatch : List (Tok S) → List (GenStmt S) → Prop
  | empty : MacroMatch [] []
  | rule1 {b : S → S} {c : S → Bool} {rest : List (Tok S)}
      {out : List (GenStmt S)} : MacroMatch rest out →
      MacroMatch
        (Tok.kwDo :: Tok.block b :: Tok.kwWhile :: Tok.cexpr c ::
          Tok.semi :: rest)
        (GenStmt.whileLoop b c none :: out)
  | rule2 {b : S → S} {c : S → Bool} {a : S → S} {rest : List (Tok S)}
      {out : List (GenStmt S)} : MacroMatch rest out →
      MacroMatch
        (Tok.kwDo :: Tok.block b :: Tok.kwWhile :: Tok.cexpr c ::
          Tok.comma :: Tok.kwDo :: Tok.block a :: rest)
        (GenStmt.whileLoop b c (some a) :: out)

/-- Executable matcher implementing the same three rules; `none` models
the compile-time "no rules expected this token" rejection. -/
def expandTokens : List (Tok S) → Option (List (GenStmt S))
  | [] => some []
  | Tok.kwDo :: Tok.block b :: Tok.kwWhile :: Tok.cexpr c ::
      Tok.semi :: rest =>
    (expandTokens rest).map (GenStmt.whileLoop b c none :: ·)
  | Tok.kwDo :: Tok.block b :: Tok.kwWhile :: Tok.cexpr c ::
      Tok.comma :: Tok.kwDo :: Tok.block a :: rest =>
    (expandTokens rest).map (GenStmt.whileLoop b c (some a) :: ·)
  | _ => none

theorem expandTokens_sound :
    ∀ {ts : List (Tok S)} {out : List (GenStmt S)},
      expandTokens ts = some out → MacroMatch ts out := by
  intro ts
  induction ts using expandTokens.induct with
  | case1 =>
    intro out h
    simp [expandTokens] at h
    exact h ▸ MacroMatch.empty
  | case2 b c rest ih =>
    intro out h
    rw [expandTokens] at h
    cases hrest : expandTokens rest with
    | none => rw [hrest] at h; cases h
    | some o =>
      rw [hrest] at h
      simp at h
      exact h ▸ MacroMatch.rule1 (ih hrest)
  | case3 b c a rest ih =>
    intro out h
    rw [expandTokens] at h
    cases hrest : expandTokens rest with
    | none => rw [hrest] at h; cases h
    | some o =>
      rw [hrest] at h
      simp at h
      exact h ▸ MacroMatch.rule2 (ih hrest)
  | case4 ts h1 h2 h3 =>
    intro out h
    rw [expandTokens] at h
    · cases h
    · exact h1
    · exact h2
    · exact h3

theorem expandTokens_complete {ts : List (Tok S)} {out : List (GenStmt S)}
    (h : MacroMatch ts out) : expandTokens ts = some out := by
  induction h with
  | empty => rfl
  | rule1 _ ih => simp [expandTokens, ih]
  | rule2 _ ih => simp [expandTokens, ih]

/-! ## Semantics of a whole expanded invocation -/

/-- Big-step semantics of one generated `while` statement. -/
def GenStmt.run : GenStmt S → S → S → Prop
  | GenStmt.whileLoop b c none => expand1 b c
  | GenStmt.whileLoop b c (some a) => expand2 b c a

/-- Big-step semantics of the statement sequence generated for one
`do_while!` invocation: the `while` loops execute in textual order, each
starting from the state the previous one left. -/
inductive GenRun : List (GenStmt S) → S → S → Prop
  | nil {s : S} : GenRun [] s s
  | cons {g : GenStmt S} {rest : List (GenStmt S)} {s s₁ s' : S} :
      g.run s s₁ → GenRun rest s₁ s' → GenRun (g :: rest) s s'

theorem GenStmt.run_det {g : GenStmt S} {s s₁ s₂ : S}
    (h₁ : g.run s s₁) (h₂ : g.run s s₂) : s₁ = s₂ := by
  cases g with
  | whileLoop b c a =>
    cases a with
    | none => exact WhileRun_det h₁ h₂
    | some a => exact WhileRun_det h₁ h₂

theorem GenRun_det {gs : List (GenStmt S)} {s s₁ s₂ : S}
    (h₁ : GenRun gs s s₁) (h₂ : GenRun gs s s₂) : s₁ = s₂ := by
  induction h₁ generalizing s₂ with
  | nil => cases h₂; rfl
  | cons hg _ ih =>
    cases h₂ with
    | cons hg' hrest' =>
      exact ih (GenStmt.run_det hg hg' ▸ hrest')

/-- Fuel-bounded executable runner for one generated statement. -/
def GenStmt.runFuel : GenStmt S → Nat → S → Option S
  | GenStmt.whileLoop b c none => whileFuel (condBlock b c) id
  | GenStmt.whileLoop b c (some a) => whileFuel (condBlock b c) a

/-- Fuel-bounded executable runner for a generated statement sequence. -/
def genRunFuel (fuel : Nat) : List (GenStmt S) → S → Option S
  | [], s => some s
  | g :: rest, s =>
    match g.runFuel fuel s with
    | some s₁ => genRunFuel fuel rest s₁
    | none => none

theorem GenStmt.runFuel_sound {g : GenStmt S} {fuel : Nat} {s s' : S}
    (h : g.runFuel fuel s = some s') : g.run s s' := by
  cases g with
  | whileLoop b c a =>
    cases a with
    | none => exact whileFuel_sound h
    | some a => exact whileFuel_sound h

theorem genRunFuel_sound {fuel : Nat} :
    ∀ {gs : List (GenStmt S)} {s s' : S},
      genRunFuel fuel gs s = some s' → GenRun gs s s' := by
  intro gs
  induction gs with
  | nil =>
    intro s s' h
    cases h
    exact GenRun.nil
  | cons g rest ih =>
    intro s s' h
    unfold genRunFuel at h
    split at h
    · exact GenRun.cons (GenStmt.runFuel_sound (by assumption)) (ih h)
    · cases h

/-! ## Trace facts -/

theorem Run1_trace_head {body : S → S} {cond : S → Bool} {s s' : S}
    {tr : List Ev} (h : Run1 body cond s s' tr) :
    ∃ t, tr = Ev.primary :: t := by
  cases h with
  | exit _ => exact ⟨_, rfl⟩
  | iter _ _ => exact ⟨_, rfl⟩

theorem Run2_trace_head {body : S → S} {cond : S → Bool} {after : S → S}
    {s s' : S} {tr : List Ev} (h : Run2 body cond after s s' tr) :
    ∃ t, tr = Ev.primary :: t := by
  cases h with
  | exit _ => exact ⟨_, rfl⟩
  | iter _ _ => exact ⟨_, rfl⟩

theorem Run1_counts {body : S → S} {cond : S → Bool} {s s' : S}
    {tr : List Ev} (h : Run1 body cond s s' tr) :
    ∀ N : Nat, checksOf tr = List.replicate N true ++ [false] →
      countPrimary tr = N + 1 := by
  induction h with
  | exit hc =>
    intro N hN
    cases N with
    | zero => simp [countPrimary]
    | succ M => simp [checksOf, List.replicate_succ] at hN
  | iter hc _ ih =>
    intro N hN
    cases N with
    | zero => simp [checksOf] at hN
    | succ M =>
      simp only [checksOf, List.filterMap_cons, List.replicate_succ,
        List.cons_append, List.cons.injEq] at hN
      have := ih M hN.2
      simp only [countPrimary, List.count_cons] at this ⊢
      simp [this]

theorem Run2_counts {body : S → S} {cond : S → Bool} {after : S → S}
    {s s' : S} {tr : List Ev} (h : Run2 body cond after s s' tr) :
    ∀ N : Nat, checksOf tr = List.replicate N true ++ [false] →
      countPrimary tr = N + 1 ∧ countSecondary tr = N := by
  induction h with
  | exit hc =>
    intro N hN
    cases N with
    | zero => simp [countPrimary, countSecondary]
    | succ M => simp [checksOf, List.replicate_succ] at hN
  | iter hc _ ih =>
    intro N hN
    cases N with
    | zero => simp [checksOf] at hN
    | succ M =>
      simp only [checksOf, List.filterMap_cons, List.replicate_succ,
        List.cons_append, List.cons.injEq] at hN
      have := ih M hN.2
      simp only [countPrimary, countSecondary, List.count_cons] at this ⊢
      simp [this.1, this.2]

theorem Run1_first_false {body : S → S} {cond : S → Bool} {s s' : S}
    {tr : List Ev} (h : Run1 body cond s s' tr)
    (hc : cond (body s) = false) :
    s' = body s ∧ tr = [Ev.primary, Ev.check false] := by
  cases h with
  | exit _ => exact ⟨rfl, rfl⟩
  | iter hc' _ => rw [hc] at hc'; cases hc'

theorem Run2_first_false {body : S → S} {cond : S → Bool} {after : S → S}
    {s s' : S} {tr : List Ev} (h : Run2 body cond after s s' tr)
    (hc : cond (body s) = false) :
    s' = body s ∧ tr = [Ev.primary, Ev.check false] := by
  cases h with
  | exit _ => exact ⟨rfl, rfl⟩
  | iter hc' _ => rw [hc] at hc'; cases hc'

theorem Run2_secondary_position {body : S → S} {cond : S → Bool}
    {after : S → S} {s s' : S} {tr : List Ev}
    (h : Run2 body cond after s s' tr) :
    ∀ l r, tr = l ++ Ev.secondary :: r →
      (∃ l₀, l = l₀ ++ [Ev.primary, Ev.check true]) ∧ Ev.primary ∈ r := by
  induction h with
  | exit _ =>
    intro l r hlr
    have : Ev.secondary ∈ [Ev.primary, Ev.check false] :=
      hlr ▸ List.mem_append.2 (Or.inr (List.mem_cons_self _ _))
    simp at this
  | iter _ htr ih =>
    intro l r hlr
    cases l with
    | nil => cases hlr
    | cons e1 l1 =>
      injection hlr with h1 h2
      cases l1 with
      | nil => cases h2
      | cons e2 l2 =>
        injection h2 with h3 h4
        cases l2 with
        | nil =>
          injection h4 with h5 h6
          subst h1 h3 h6
          refine ⟨⟨[], rfl⟩, ?_⟩
          obtain ⟨t, ht⟩ := Run2_trace_head htr
          simp [ht]
        | cons e3 l3 =>
          injection h4 with h5 h6
          obtain ⟨⟨l₀, hl₀⟩, hmem⟩ := ih l3 r (by simpa using h6)
          subst h1 h3 h5 hl₀
          exact ⟨⟨Ev.primary :: Ev.check true :: Ev.secondary :: l₀, rfl⟩, hmem⟩

theorem Run1_check_after_primary {body : S → S} {cond : S → Bool}
    {s s' : S} {tr : List Ev} (h : Run1 body cond s s' tr) :
    ∀ l r, tr = l ++ Ev.primary :: r → ∃ b r', r = Ev.check b :: r' := by
  induction h with
  | exit _ =>
    intro l r hlr
    cases l with
    | nil =>
      injection hlr with h1 h2
      exact ⟨false, [], h2.symm⟩
    | cons e1 l1 =>
      injection hlr with h1 h2
      cases l1 with
      | nil => cases h2
      | cons e2 l2 =>
        injection h2 with h3 h4
        cases l2 <;> cases h4
  | iter _ htr ih =>
    intro l r hlr
    cases l with
    | nil =>
      injection hlr with h1 h2
      exact ⟨true, _, h2.symm⟩
    | cons e1 l1 =>
      injection hlr with h1 h2
      cases l1 with
      | nil => cases h2
      | cons e2 l2 =>
        injection h2 with h3 h4
        exact ih l2 r (by simpa using h4)

theorem Run2_check_after_primary {body : S → S} {cond : S → Bool}
    {after : S → S} {s s' : S} {tr : List Ev}
    (h : Run2 body cond after s s' tr) :
    ∀ l r, tr = l ++ Ev.primary :: r → ∃ b r', r = Ev.check b :: r' := by
  induction h with
  | exit _ =>
    intro l r hlr
    cases l with
    | nil =>
      injection hlr with h1 h2
      exact ⟨false, [], h2.symm⟩
    | cons e1 l1 =>
      injection hlr with h1 h2
      cases l1 with
      | nil => cases h2
      | cons e2 l2 =>
        injection h2 with h3 h4
        cases l2 <;> cases h4
  | iter _ htr ih =>
    intro l r hlr
    cases l with
    | nil =>
      injection hlr with h1 h2
      exact ⟨true, _, h2.symm⟩
    | cons e1 l1 =>
      injection hlr with h1 h2
      cases l1 with
      | nil => cases h2
      | cons e2 l2 =>
        injection h2 with h3 h4
        cases l2 with
        | nil => cases h4
        | cons e3 l3 =>
          injection h4 with h5 h6
          exact ih l3 r (by simpa using h6)

theorem Run1_checks_length {body : S → S} {cond : S → Bool}
    {s s' : S} {tr : List Ev} (h : Run1 body cond s s' tr) :
    (checksOf tr).length = countPrimary tr := by
  induction h with
  | exit _ => simp [checksOf, countPrimary]
  | iter _ _ ih =>
    simp only [checksOf, List.filterMap_cons, countPrimary,
      List.count_cons] at ih ⊢
    simp [ih]

theorem Run2_checks_length {body : S → S} {cond : S → Bool} {after : S → S}
    {s s' : S} {tr : List Ev} (h : Run2 body cond after s s' tr) :
    (checksOf tr).length = countPrimary tr := by
  induction h with
  | exit _ => simp [checksOf, countPrimary]
  | iter _ _ ih =>
    simp only [checksOf, List.filterMap_cons, countPrimary,
      List.count_cons] at ih ⊢
    simp [ih]

/-! ## Nontermination of the generated loop under an always-true condition -/

theorem WhileRun_nonterm {condExpr : S → S × Bool} {loopBody : S → S}
    (P : S → Prop) (hc : ∀ t, P t → (condExpr t).2 = true)
    (hp : ∀ t, P t → P (loopBody (condExpr t).1)) :
    ∀ {s s' : S}, WhileRun condExpr loopBody s s' → P s → False := by
  intro s s' h
  induction h with
  | exit he =>
    intro hP
    have := hc _ hP
    rw [he] at this
    simp at this
  | iter hcond _ ih =>
    intro hP
    have := hp _ hP
    rw [hcond] at this
    exact ih this

/-! ## Equivalence of the form-(1) expansion with reference do-while -/

theorem expand1_to_ref {body : S → S} {cond : S → Bool} {s s' : S}
    (h : expand1 body cond s s') : DoWhileRef body cond s s' := by
  induction h with
  | exit he =>
    simp only [condBlock, Prod.mk.injEq] at he
    exact he.1 ▸ DoWhileRef.stop he.2
  | iter hc _ ih =>
    simp only [condBlock, Prod.mk.injEq] at hc
    exact DoWhileRef.again hc.2 (by rw [hc.1]; simpa using ih)

theorem ref_to_expand1 {body : S → S} {cond : S → Bool} {s s' : S}
    (h : DoWhileRef body cond s s') : expand1 body cond s s' := by
  induction h with
  | stop hc => exact WhileRun.exit (by simp [condBlock, hc])
  | @again t t' hc _ ih =>
    exact @WhileRun.iter _ _ _ t (body t) t' (by simp [condBlock, hc])
      (by simpa using ih)

/-! ## Concrete scenarios from the spec and the crate's test

Scenario B (the do-while-do example `test_do_while`, src/src/lib.rs lines
172-184): the primary body appends `items[index]` to an accumulator string
and increments the index, the condition is `index < items.len()` over
`[1, 2, 3, 4]`, and the secondary body appends `", "`. -/

/-- State of scenario B: the accumulator string and the index. -/
structure StB where
  string : String
  index : Nat
  deriving DecidableEq, Repr

/-- The 4-element sequence `vec![1, 2, 3, 4]` of scenario B. -/
def itemsB : List Int := [1, 2, 3, 4]

/-- Primary body of scenario B:
`string.push_str(&items[index].to_string()); index += 1;`.  The `vec`
indexing is embedded with `getD`; the loop keeps `index` in bounds, so the
default is never taken. -/
def bodyB (s : StB) : StB :=
  { s with string := s.string ++ toString (itemsB.getD s.index 0),
           index := s.index + 1 }

/-- Condition of scenario B: `index < items.len()`. -/
def condB (s : StB) : Bool := s.index < itemsB.length

/-- Secondary body of scenario B: `string.push_str(", ")`. -/
def afterB (s : StB) : StB := { s with string := s.string ++ ", " }

/-- Scenario C (spec section 8; the multiple-loops example): three loops in
one invocation, over a state holding all the variables in scope. -/
structure StC where
  x : Int
  y : Int
  string : String
  index : Nat
  deriving DecidableEq, Repr

/-- Body of the first scenario-C loop: `x += 1`. -/
def bodyCx (s : StC) : StC := { s with x := s.x + 1 }

/-- Condition of the first scenario-C loop: `x < 10`. -/
def condCx (s : StC) : Bool := s.x < 10

/-- Body of the second scenario-C loop: `y -= 1`. -/
def bodyCy (s : StC) : StC := { s with y := s.y - 1 }

/-- Condition of the second scenario-C loop: `y > -20`. -/
def condCy (s : StC) : Bool := s.y > -20

/-- Body of the third scenario-C loop (the scenario-B join on `StC`). -/
def bodyCj (s : StC) : StC :=
  { s with string := s.string ++ toString (itemsB.getD s.index 0),
           index := s.index + 1 }

/-- Condition of the third scenario-C loop: `index < items.len()`. -/
def condCj (s : StC) : Bool := s.index < itemsB.length

/-- Secondary body of the third scenario-C loop: `string.push_str(", ")`. -/
def afterCj (s : StC) : StC := { s with string := s.string ++ ", " }

/-- The token stream of the scenario-C invocation: two form-(1) loops
followed by one form-(2) loop. -/
def scenCTokens : List (Tok StC) :=
  [Tok.kwDo, Tok.block bodyCx, Tok.kwWhile, Tok.cexpr condCx, Tok.semi,
   Tok.kwDo, Tok.block bodyCy, Tok.kwWhile, Tok.cexpr condCy, Tok.semi,
   Tok.kwDo, Tok.block bodyCj, Tok.kwWhile, Tok.cexpr condCj, Tok.comma,
   Tok.kwDo, Tok.block afterCj]

/-- The statements the macro generates for the scenario-C invocation. -/
def scenCStmts : List (GenStmt StC) :=
  [GenStmt.whileLoop bodyCx condCx none,
   GenStmt.whileLoop bodyCy condCy none,
   GenStmt.whileLoop bodyCj condCj (some afterCj)]

/-- Initial state of scenario C: `x = 0`, `y = 0`, empty string, `index = 0`. -/
def scenCInit : StC := ⟨0, 0, "", 0⟩

/-- Expected final state of scenario C. -/
def scenCFinal : StC := ⟨10, -20, "1, 2, 3, 4", 4⟩

/-! ## Rejection of malformed input -/

theorem MacroMatch_append_none {ts : List (Tok S)} {out : List (GenStmt S)}
    (h : MacroMatch ts out) {tail : List (Tok S)}
    (htail : ∀ o, ¬ MacroMatch tail o) :
    ∀ o, ¬ MacroMatch (ts ++ tail) o := by
  induction h with
  | empty => simpa using htail
  | rule1 _ ih =>
    intro o ho
    simp only [List.cons_append] at ho
    cases ho with
    | rule1 h' => exact ih _ h'
  | rule2 _ ih =>
    intro o ho
    simp only [List.cons_append] at ho
    cases ho with
    | rule2 h' => exact ih _ h'

theorem expandTokens_none_of_no_match {ts : List (Tok S)}
    (h : ∀ out, ¬ MacroMatch ts out) : expandTokens ts = none := by
  cases he : expandTokens ts with
  | none => rfl
  | some o => exact absurd (expandTokens_sound he) (h o)

/-- The final event of a terminating form-(2) run is the failing check. -/
theorem Run2_trace_last {body : S → S} {cond : S → Bool} {after : S → S}
    {s s' : S} {tr : List Ev} (h : Run2 body cond after s s' tr) :
    ∃ t, tr = t ++ [Ev.check false] := by
  induction h with
  | exit _ => exact ⟨[Ev.primary], rfl⟩
  | iter _ _ ih =>
    obtain ⟨t, ht⟩ := ih
    exact ⟨Ev.primary :: Ev.check true :: Ev.secondary :: t, by simp [ht]⟩

/-! ## The claims -/

/-- C1: For every condition that evaluates to true on exactly N consecutive
checks and then to false, an expanded do-while loop executes the primary
body exactly N+1 times, and in the do-while-do form the secondary body
executes exactly N times. -/
theorem claim1_iteration_counts :
    (∀ (S : Type) (body : S → S) (cond : S → Bool) (s s' : S)
        (tr : List Ev) (N : Nat), Run1 body cond s s' tr →
        checksOf tr = List.replicate N true ++ [false] →
        countPrimary tr = N + 1)
    ∧ (∀ (S : Type) (body : S → S) (cond : S → Bool) (after : S → S)
        (s s' : S) (tr : List Ev) (N : Nat), Run2 body cond after s s' tr →
        checksOf tr = List.replicate N true ++ [false] →
        countPrimary tr = N + 1 ∧ countSecondary tr = N) :=
  ⟨fun _ _ _ _ _ _ _ h hN => Run1_counts h _ hN,
   fun _ _ _ _ _ _ _ _ h hN => Run2_counts h _ hN⟩

/-- Witness for C1: a do-while-do run whose condition is true on exactly 2
checks (body `Nat.succ` from 0, condition `k < 3`) runs the primary body
3 times and the secondary body 2 times. -/
theorem claim1_witness :
    countPrimary [Ev.primary, Ev.check true, Ev.secondary, Ev.primary,
        Ev.check true, Ev.secondary, Ev.primary, Ev.check false] = 2 + 1 ∧
    countSecondary [Ev.primary, Ev.check true, Ev.secondary, Ev.primary,
        Ev.check true, Ev.secondary, Ev.primary, Ev.check false] = 2 :=
  claim1_iteration_counts.2 Nat Nat.succ (fun k => decide (k < 3)) id 0 3
    _ 2 (run2Fuel_sound (n := 5) rfl) (by decide)

/-- C2: The expansion of form (1), `do <body> while <cond>;`, namely
`while { body; cond } {}`, is semantically equivalent to reference
do-while semantics: execute the body once unconditionally, then evaluate
the condition; if true, execute the body again and recheck; if false,
terminate. -/
theorem claim2_expand1_equiv_ref :
    ∀ (S : Type) (body : S → S) (cond : S → Bool) (s s' : S),
      expand1 body cond s s' ↔ DoWhileRef body cond s s' :=
  fun _ _ _ _ _ => ⟨expand1_to_ref, ref_to_expand1⟩

/-- Witness for C2: the equivalence transports a concrete terminating run
of the generated loop to the reference semantics. -/
theorem claim2_witness :
    DoWhileRef Nat.succ (fun k => decide (k < 3)) 0 3 :=
  (claim2_expand1_equiv_ref Nat Nat.succ (fun k => decide (k < 3)) 0 3).mp
    (whileFuel_sound (n := 5) rfl)

/-- C3: For every initial state in which the condition evaluates to false on
its very first evaluation (which happens after the unconditional first
primary-body execution), the primary body still executes exactly once, the
loop performs no further iterations, and the secondary body, if present,
never executes. -/
theorem claim3_initially_false :
    (∀ (S : Type) (body : S → S) (cond : S → Bool) (s s' : S)
        (tr : List Ev), cond (body s) = false → Run1 body cond s s' tr →
        s' = body s ∧ tr = [Ev.primary, Ev.check false])
    ∧ (∀ (S : Type) (body : S → S) (cond : S → Bool) (after : S → S)
        (s s' : S) (tr : List Ev), cond (body s) = false →
        Run2 body cond after s s' tr →
        s' = body s ∧ tr = [Ev.primary, Ev.check false] ∧
          countPrimary tr = 1 ∧ countSecondary tr = 0) := by
  constructor
  · intro S body cond s s' tr hc h
    exact Run1_first_false h hc
  · intro S body cond after s s' tr hc h
    obtain ⟨h1, h2⟩ := Run2_first_false h hc
    refine ⟨h1, h2, ?_, ?_⟩ <;> rw [h2] <;> rfl

/-- Witness for C3: with condition constantly false, the loop started at 0
with body `Nat.succ` stops at 1 after the single forced body execution. -/
theorem claim3_witness :
    (1 : Nat) = Nat.succ 0 ∧
      ([Ev.primary, Ev.check false] : List Ev) =
        [Ev.primary, Ev.check false] :=
  claim3_initially_false.1 Nat Nat.succ (fun _ => false) 0 1 _ rfl
    (run1Fuel_sound (n := 1) rfl)

/-- C4: In every execution of an expanded do-while-do loop, the secondary
body never executes after the final (failing) condition check (the failing
check is the last event of the run) and never executes before the very
first execution of the primary body; it executes only between two
executions of the primary body, following a condition check that evaluated
to true. -/
theorem claim4_secondary_between :
    ∀ (S : Type) (body : S → S) (cond : S → Bool) (after : S → S)
      (s s' : S) (tr : List Ev), Run2 body cond after s s' tr →
      (∃ t, tr = t ++ [Ev.check false]) ∧
      ∀ l r, tr = l ++ Ev.secondary :: r →
        (∃ l₀, l = l₀ ++ [Ev.primary, Ev.check true]) ∧ Ev.primary ∈ r :=
  fun _ _ _ _ _ _ _ h => ⟨Run2_trace_last h, Run2_secondary_position h⟩

/-- Witness for C4: in the 2-iteration run of body `Nat.succ` under
condition `k < 2`, the one secondary execution sits right after the true
check and before the final primary execution. -/
theorem claim4_witness :
    (∃ t, ([Ev.primary, Ev.check true, Ev.secondary, Ev.primary,
        Ev.check false] : List Ev) = t ++ [Ev.check false]) ∧
    ((∃ l₀, ([Ev.primary, Ev.check true] : List Ev) =
        l₀ ++ [Ev.primary, Ev.check true]) ∧
      Ev.primary ∈ ([Ev.primary, Ev.check false] : List Ev)) :=
  ⟨(claim4_secondary_between Nat Nat.succ (fun k => decide (k < 2)) id 0 2
      _ (run2Fuel_sound (n := 3) rfl)).1,
   (claim4_secondary_between Nat Nat.succ (fun k => decide (k < 2)) id 0 2
      _ (run2Fuel_sound (n := 3) rfl)).2
      [Ev.primary, Ev.check true] [Ev.primary, Ev.check false] rfl⟩

/-- C5: When several loops (any mix of forms (1) and (2)) are declared in
one invocation, each is rewritten and then executed independently in the
textual order given; in particular, in scenario C (a counter incrementing
to 10, a counter decrementing to -20, and the sequence-join of scenario B
in one invocation) the expansion matches and the final states are
`x = 10`, `y = -20`, the joined string `"1, 2, 3, 4"` and `index = 4`,
with no cross-interference. -/
theorem claim5_multiple_loops :
    (∀ (S : Type) (g : GenStmt S) (rest : List (GenStmt S)) (s s' : S),
        GenRun (g :: rest) s s' ↔ ∃ s₁, g.run s s₁ ∧ GenRun rest s₁ s')
    ∧ MacroMatch scenCTokens scenCStmts
    ∧ (∀ s', GenRun scenCStmts scenCInit s' ↔ s' = scenCFinal) := by
  refine ⟨?_, ?_, ?_⟩
  · intro S g rest s s'
    constructor
    · intro h
      cases h with
      | cons hg hrest => exact ⟨_, hg, hrest⟩
    · rintro ⟨s₁, hg, hrest⟩
      exact GenRun.cons hg hrest
  · exact MacroMatch.rule1 (MacroMatch.rule1 (MacroMatch.rule2
      MacroMatch.empty))
  · intro s'
    constructor
    · intro h
      exact GenRun_det h (@genRunFuel_sound StC 40 scenCStmts scenCInit
        scenCFinal (by decide))
    · intro h
      exact h ▸ @genRunFuel_sound StC 40 scenCStmts scenCInit scenCFinal
        (by decide)

/-- Witness for C5: the scenario-C statement sequence actually runs from
the initial state to the expected final state. -/
theorem claim5_witness : GenRun scenCStmts scenCInit scenCFinal :=
  (claim5_multiple_loops.2.2 scenCFinal).mpr rfl

/-- C6: For the do-while-do loop whose primary body appends `items[index]`
to an accumulator string and increments `index`, whose condition is
`index < items.len()` over the 4-element sequence `[1, 2, 3, 4]`, and whose
secondary body appends the separator `", "`, the final accumulated string
is exactly `"1, 2, 3, 4"` (and the final index is 4): the separator appears
between consecutive elements and never after the last element. -/
theorem claim6_scenarioB :
    ∀ s' : StB, expand2 bodyB condB afterB ⟨"", 0⟩ s' ↔
      s' = ⟨"1, 2, 3, 4", 4⟩ := by
  intro s'
  constructor
  · intro h
    exact WhileRun_det h (whileFuel_sound (n := 10) (by decide))
  · intro h
    exact h ▸ whileFuel_sound (n := 10) (by decide)

/-- Witness for C6: the scenario-B loop actually runs from the empty
accumulator to `"1, 2, 3, 4"`. -/
theorem claim6_witness :
    expand2 bodyB condB afterB ⟨"", 0⟩ ⟨"1, 2, 3, 4", 4⟩ :=
  (claim6_scenarioB ⟨"1, 2, 3, 4", 4⟩).mpr rfl

/-- C7: The rewrite is a pure, deterministic syntactic transformation:
two expansions of the same macro input yield identical generated code. -/
theorem claim7_expansion_deterministic :
    ∀ (S : Type) (ts : List (Tok S)) (o₁ o₂ : List (GenStmt S)),
      MacroMatch ts o₁ → MacroMatch ts o₂ → o₁ = o₂ := by
  intro S ts o₁ o₂ h₁ h₂
  induction h₁ generalizing o₂ with
  | empty => cases h₂; rfl
  | rule1 _ ih =>
    cases h₂ with
    | rule1 h' => rw [ih _ h']
  | rule2 _ ih =>
    cases h₂ with
    | rule2 h' => rw [ih _ h']

/-- Witness for C7: two expansions of the scenario-C input both give the
scenario-C statement sequence. -/
theorem claim7_witness : scenCStmts = scenCStmts :=
  claim7_expansion_deterministic StC scenCTokens scenCStmts scenCStmts
    (MacroMatch.rule1 (MacroMatch.rule1 (MacroMatch.rule2 MacroMatch.empty)))
    (MacroMatch.rule1 (MacroMatch.rule1 (MacroMatch.rule2 MacroMatch.empty)))

/-- C8: For every expanded loop whose condition evaluates to true on every
check (the invariant `P` holding the states at which checks happen being
preserved by the body executions), the loop never terminates — in either
form. -/
theorem claim8_always_true_nonterm :
    (∀ (S : Type) (body : S → S) (cond : S → Bool) (after : S → S)
        (P : S → Prop) (s : S), P s →
        (∀ t, P t → cond (body t) = true) →
        (∀ t, P t → P (after (body t))) →
        ∀ s', ¬ expand2 body cond after s s')
    ∧ (∀ (S : Type) (body : S → S) (cond : S → Bool)
        (P : S → Prop) (s : S), P s →
        (∀ t, P t → cond (body t) = true) →
        (∀ t, P t → P (body t)) →
        ∀ s', ¬ expand1 body cond s s') := by
  constructor
  · intro S body cond after P s hP hc hp s' h
    exact WhileRun_nonterm P (fun t ht => by simp [condBlock, hc t ht])
      (fun t ht => by simpa [condBlock] using hp t ht) h hP
  · intro S body cond P s hP hc hp s' h
    exact WhileRun_nonterm P (fun t ht => by simp [condBlock, hc t ht])
      (fun t ht => by simpa [condBlock] using hp t ht) h hP

/-- Witness for C8: the loop with constantly-true condition and identity
bodies admits no terminating run from 0 to 0. -/
theorem claim8_witness : ¬ expand2 (id : Nat → Nat) (fun _ => true) id 0 0 :=
  claim8_always_true_nonterm.1 Nat id (fun _ => true) id (fun _ => True) 0
    trivial (fun _ _ => rfl) (fun _ _ => trivial) 0

/-- C9: For every macro input that does not match one of the three
recognized shapes (empty, form (1) ending in `;`, or form (2)), the rewrite
is rejected at compile time (the matcher returns `none`); and the rewriter
performs no partial match and no recovery: a recognized prefix followed by
an unrecognized trailing fragment fails to expand as a whole rather than
being silently dropped or partially rewritten. -/
theorem claim9_malformed_rejected :
    (∀ (S : Type) (ts : List (Tok S)),
        (∀ out, ¬ MacroMatch ts out) → expandTokens ts = none)
    ∧ (∀ (S : Type) (ts tail : List (Tok S)) (out : List (GenStmt S)),
        MacroMatch ts out → (∀ o, ¬ MacroMatch tail o) →
        ∀ o, ¬ MacroMatch (ts ++ tail) o) :=
  ⟨fun _ _ h => expandTokens_none_of_no_match h,
   fun _ _ _ _ hts htail => MacroMatch_append_none hts htail⟩

/-- Witness for C9: the lone token `do` matches no rule and is rejected. -/
theorem claim9_witness :
    expandTokens ([Tok.kwDo] : List (Tok Nat)) = none :=
  claim9_malformed_rejected.1 Nat [Tok.kwDo] (fun _ h => nomatch h)

/-- C10: In every execution of an expanded loop (either form), the
condition is evaluated exactly once per primary-body execution, always
immediately after that body execution; hence the number of condition
evaluations equals the number of primary-body executions. -/
theorem claim10_check_per_primary :
    (∀ (S : Type) (body : S → S) (cond : S → Bool) (s s' : S)
        (tr : List Ev), Run1 body cond s s' tr →
        (checksOf tr).length = countPrimary tr ∧
        ∀ l r, tr = l ++ Ev.primary :: r → ∃ b r', r = Ev.check b :: r')
    ∧ (∀ (S : Type) (body : S → S) (cond : S → Bool) (after : S → S)
        (s s' : S) (tr : List Ev), Run2 body cond after s s' tr →
        (checksOf tr).length = countPrimary tr ∧
        ∀ l r, tr = l ++ Ev.primary :: r → ∃ b r', r = Ev.check b :: r') :=
  ⟨fun _ _ _ _ _ _ h =>
     ⟨Run1_checks_length h, Run1_check_after_primary h⟩,
   fun _ _ _ _ _ _ _ h =>
     ⟨Run2_checks_length h, Run2_check_after_primary h⟩⟩

/-- Witness for C10: in the 2-iteration form-(1) run of body `Nat.succ`
under condition `k < 2`, the checks equal the primary executions in number
and each primary execution is immediately followed by a check. -/
theorem claim10_witness :
    (checksOf [Ev.primary, Ev.check true, Ev.primary,
        Ev.check false]).length =
      countPrimary [Ev.primary, Ev.check true, Ev.primary, Ev.check false]
    ∧ ∃ b r', ([Ev.check true, Ev.primary, Ev.check false] : List Ev) =
        Ev.check b :: r' :=
  ⟨(claim10_check_per_primary.1 Nat Nat.succ (fun k => decide (k < 2)) 0 2
      _ (run1Fuel_sound (n := 3) rfl)).1,
   (claim10_check_per_primary.1 Nat Nat.succ (fun k => decide (k < 2)) 0 2
      _ (run1Fuel_sound (n := 3) rfl)).2
      [] [Ev.check true, Ev.primary, Ev.check false] rfl⟩

end DoWhileVerif
